import Mathlib

/-!
Shallow embedding of the in-silico PCR core (`utils.py`) and the
exon-junction annotator (`app.py`) of the primers3 repository.

Sequences are lists of characters; Python string slicing is rendered with
`List.take`/`List.drop`, Python `sum(1 for a, b in zip(...) if a != b)` with
`countP` over `zip`, and the conditional-append loop with `filterMap` over
`List.range`.  `list.sort` (a stable sort) is rendered with `List.mergeSort`.
Integer parameters that may be negative (`max_mismatches`, `max_product`,
coordinates in the junction annotator) are `Int`.
-/

namespace Primers3

/-- `sum(1 for a, b in zip(w, s) if a != b)` — the Hamming-style mismatch
count over the aligned prefix of the two sequences. -/
def countMismatches (w s : List Char) : Nat :=
  (w.zip s).countP fun p => p.1 != p.2

/-- Python `x[-n:]`: the last `n` elements (the whole list when shorter). -/
def lastN (n : Nat) (l : List Char) : List Char :=
  l.drop (l.length - n)

/-- One site dict produced by `find_binding_sites`:
keys `start`, `end`, `mismatches`, `3prime_mismatches`, `sequence`. -/
structure BindingSite where
  start : Nat
  ending : Nat
  mismatches : Nat
  threePrimeMismatches : Nat
  sequence : List Char
deriving DecidableEq

/-- The window `template_upper[i:i+p_len]` compared against the probe. -/
def windowAt (template search_seq : List Char) (i : Nat) : List Char :=
  ((template.map Char.toUpper).drop i).take search_seq.length

/-- The site dict built at window offset `i` (0-based), when accepted. -/
def siteAt (template search_seq : List Char) (is_reverse : Bool) (i : Nat) :
    BindingSite :=
  let search_upper := search_seq.map Char.toUpper
  let window := windowAt template search_seq i
  let mismatches := countMismatches window search_upper
  let end_mismatches :=
    if is_reverse = false then
      countMismatches (lastN 5 window) (lastN 5 search_upper)
    else
      countMismatches (window.take 5) (search_upper.take 5)
  ⟨i + 1, i + search_seq.length, mismatches, end_mismatches, window⟩

/-- `find_binding_sites(template, search_seq, max_mismatches, is_reverse)`
from `utils.py`: slide a window of the probe length over the template,
keep every offset whose mismatch count is within budget. -/
def find_binding_sites (template search_seq : List Char)
    (max_mismatches : Int) (is_reverse : Bool) : List BindingSite :=
  let t_len := template.length
  let p_len := search_seq.length
  if t_len = 0 ∨ p_len = 0 ∨ t_len < p_len then
    []
  else
    (List.range (t_len - p_len + 1)).filterMap fun i =>
      if (countMismatches (windowAt template search_seq i)
            (search_seq.map Char.toUpper) : Int) ≤ max_mismatches then
        some (siteAt template search_seq is_reverse i)
      else
        none

/-- The complement table of `reverse_complement` in `utils.py`; any symbol
outside the table maps to `N` (the dict `.get(b, "N")` default). -/
def complementChar (c : Char) : Char :=
  if c = 'A' then 'T'
  else if c = 'T' then 'A'
  else if c = 'G' then 'C'
  else if c = 'C' then 'G'
  else if c = 'N' then 'N'
  else if c = 'R' then 'Y'
  else if c = 'Y' then 'R'
  else if c = 'S' then 'S'
  else if c = 'W' then 'W'
  else if c = 'K' then 'M'
  else if c = 'M' then 'K'
  else if c = 'B' then 'V'
  else if c = 'V' then 'B'
  else if c = 'D' then 'H'
  else if c = 'H' then 'D'
  else 'N'

/-- `reverse_complement(seq)`: complement each base of the reversed,
uppercased sequence. -/
def reverse_complement (seq : List Char) : List Char :=
  ((seq.map Char.toUpper).reverse).map complementChar

/-- One product dict produced by `run_virtual_pcr`. -/
structure Amplicon where
  fwd_start : Nat
  fwd_end : Nat
  rev_start : Nat
  rev_end : Nat
  size : Nat
  fwd_mismatches : Nat
  rev_mismatches : Nat
  fwd_3prime_mm : Nat
  rev_3prime_mm : Nat
deriving DecidableEq

/-- The nested loop of `run_virtual_pcr` that pairs every forward site with
every reverse site, keeping pairs with `f["start"] < r["end"]` and
`product_size <= max_product`. -/
def enumerate_products (fwd_sites rev_sites : List BindingSite)
    (max_product : Int) : List Amplicon :=
  fwd_sites.flatMap fun f =>
    rev_sites.filterMap fun r =>
      if f.start < r.ending then
        let product_size := r.ending - f.start + 1
        if (product_size : Int) ≤ max_product then
          some ⟨f.start, f.ending, r.start, r.ending, product_size,
                f.mismatches, r.mismatches,
                f.threePrimeMismatches, r.threePrimeMismatches⟩
        else
          none
      else
        none

/-- `run_virtual_pcr(template, fwd, rev, max_mismatches, max_product)` from
`utils.py`: find both primers' binding sites (the reverse primer via its
reverse complement), pair them, and sort the products by size with a
stable sort (Python `list.sort`). -/
def run_virtual_pcr (template fwd rev : List Char)
    (max_mismatches : Int) (max_product : Int) : List Amplicon :=
  let template_up := template.map Char.toUpper
  let rev_comp := reverse_complement rev
  let fwd_sites := find_binding_sites template_up fwd max_mismatches false
  let rev_sites := find_binding_sites template_up rev_comp max_mismatches true
  (enumerate_products fwd_sites rev_sites max_product).mergeSort
    fun x y => decide (x.size ≤ y.size)

/-- `exon_junctions_0based(exons_1b)` from `app.py`:
`[e for (s, e) in exons_1b[:-1]]`, and `[]` for an empty list. -/
def exon_junctions_0based (exons_1b : List (Int × Int)) : List Int :=
  if exons_1b.isEmpty then [] else (exons_1b.dropLast).map fun se => se.2

/-- `spans_junction(primer_start, primer_len, junction, min_tail)` from
`app.py`. -/
def spans_junction (primer_start primer_len junction min_tail : Int) : Bool :=
  let a := primer_start
  let b := primer_start + primer_len
  let left_tail := junction - a
  let right_tail := b - junction
  decide (a < junction) && decide (junction < b) &&
    decide (left_tail ≥ min_tail) && decide (right_tail ≥ min_tail)

/-- The coordinate fields of a primer pair used by
`annotate_primers_with_junctions`. -/
structure PrimerRec where
  left_start : Int
  left_length : Int
  right_start : Int
  right_length : Int
deriving DecidableEq

/-- A primer record together with the two junction flags the annotator adds. -/
structure AnnotatedPrimer where
  primer : PrimerRec
  fwd_spans_junction : Bool
  rev_spans_junction : Bool
deriving DecidableEq

/-- `annotate_primers_with_junctions(primers, junctions, min_tail)` from
`app.py`: each flag is `bool([...])` of the filtered junction list. -/
def annotate_primers_with_junctions (primers : List PrimerRec)
    (junctions : List Int) (min_tail : Int) : List AnnotatedPrimer :=
  primers.map fun p =>
    let rev_start := p.right_start - p.right_length
    let rev_len := p.right_length
    ⟨p,
     !(junctions.filter fun j =>
         spans_junction p.left_start p.left_length j min_tail).isEmpty,
     !(junctions.filter fun j =>
         spans_junction rev_start rev_len j min_tail).isEmpty⟩

/-- Specification-side predicate, following the spec text of the
exact-match oracle: the probe
occurs verbatim (character for character, after uppercasing) as a substring
of the template at 1-based position `pos`. -/
def occursAt (template probe : List Char) (pos : Nat) : Prop :=
  1 ≤ pos ∧ pos - 1 + probe.length ≤ template.length ∧
    ((template.map Char.toUpper).drop (pos - 1)).take probe.length =
      probe.map Char.toUpper

instance (template probe : List Char) (pos : Nat) :
    Decidable (occursAt template probe pos) := by
  unfold occursAt
  infer_instance

/-- A window that disagrees with the probe exactly at position 0
(0-based) and nowhere else. -/
def mismatchOnlyAtZero (w p : List Char) : Prop :=
  w.length = p.length ∧ w.head? ≠ p.head? ∧ w.drop 1 = p.drop 1

instance (w p : List Char) : Decidable (mismatchOnlyAtZero w p) := by
  unfold mismatchOnlyAtZero
  infer_instance

/-- The IUPAC alphabet accepted by the validator. -/
def dnaAlphabet : List Char :=
  ['A', 'T', 'G', 'C', 'N', 'R', 'Y', 'S', 'W', 'K', 'M', 'B', 'D', 'H', 'V']

/-! ### Basic lemmas about the mismatch count -/

lemma countMismatches_cons (a b : Char) (w s : List Char) :
    countMismatches (a :: w) (b :: s) =
      countMismatches w s + (if a != b then 1 else 0) := by
  simp [countMismatches, List.zip_cons_cons, List.countP_cons]

lemma countMismatches_self (l : List Char) : countMismatches l l = 0 := by
  induction l with
  | nil => rfl
  | cons a t ih => simp [countMismatches_cons, ih]

lemma countMismatches_eq_zero_iff :
    ∀ {w s : List Char}, w.length = s.length →
      (countMismatches w s = 0 ↔ w = s)
  | [], [], _ => by simp [countMismatches]
  | [], _ :: _, h => by simp at h
  | _ :: _, [], h => by simp at h
  | a :: t, b :: u, h => by
    have h' : t.length = u.length := by simpa using h
    by_cases hab : a = b
    · subst hab
      simp [countMismatches_cons, countMismatches_eq_zero_iff h']
    · simp [countMismatches_cons, hab]

lemma countMismatches_take_le (n : Nat) (w s : List Char) :
    countMismatches (w.take n) (s.take n) ≤ countMismatches w s := by
  unfold countMismatches
  rw [List.zip_eq_zipWith, ← List.take_zipWith, ← List.zip_eq_zipWith]
  exact (List.take_sublist _ _).countP_le _

lemma countMismatches_drop_le (n : Nat) (w s : List Char) :
    countMismatches (w.drop n) (s.drop n) ≤ countMismatches w s := by
  unfold countMismatches
  rw [List.zip_eq_zipWith, ← List.drop_zipWith, ← List.zip_eq_zipWith]
  exact (List.drop_sublist _ _).countP_le _

/-! ### Structure of `find_binding_sites` -/

lemma siteAt_start (T P : List Char) (rev : Bool) (i : Nat) :
    (siteAt T P rev i).start = i + 1 := rfl

lemma siteAt_ending (T P : List Char) (rev : Bool) (i : Nat) :
    (siteAt T P rev i).ending = i + P.length := rfl

lemma siteAt_mismatches (T P : List Char) (rev : Bool) (i : Nat) :
    (siteAt T P rev i).mismatches =
      countMismatches (windowAt T P i) (P.map Char.toUpper) := rfl

lemma siteAt_sequence (T P : List Char) (rev : Bool) (i : Nat) :
    (siteAt T P rev i).sequence = windowAt T P i := rfl

lemma siteAt_threePrime_forward (T P : List Char) (i : Nat) :
    (siteAt T P false i).threePrimeMismatches =
      countMismatches (lastN 5 (windowAt T P i))
        (lastN 5 (P.map Char.toUpper)) := rfl

lemma siteAt_threePrime_reverse (T P : List Char) (i : Nat) :
    (siteAt T P true i).threePrimeMismatches =
      countMismatches ((windowAt T P i).take 5)
        ((P.map Char.toUpper).take 5) := rfl

lemma windowAt_length {T P : List Char} {i : Nat}
    (h : i + P.length ≤ T.length) :
    (windowAt T P i).length = P.length := by
  simp only [windowAt, List.length_take, List.length_drop, List.length_map]
  omega

/-- Membership characterisation of the sliding-window search. -/
lemma mem_find_binding_sites {T P : List Char} {mm : Int} {rev : Bool}
    {s : BindingSite} :
    s ∈ find_binding_sites T P mm rev ↔
      T ≠ [] ∧ P ≠ [] ∧ P.length ≤ T.length ∧
      ∃ i, i < T.length - P.length + 1 ∧
        (countMismatches (windowAt T P i) (P.map Char.toUpper) : Int) ≤ mm ∧
        s = siteAt T P rev i := by
  unfold find_binding_sites
  by_cases hg : T.length = 0 ∨ P.length = 0 ∨ T.length < P.length
  · simp only [if_pos hg, List.not_mem_nil, false_iff]
    rintro ⟨hT, hP, hle, -⟩
    rcases hg with h0 | h0 | h0
    · exact hT (List.length_eq_zero.mp h0)
    · exact hP (List.length_eq_zero.mp h0)
    · omega
  · push_neg at hg
    obtain ⟨h1, h2, h3⟩ := hg
    rw [if_neg (by push_neg; exact ⟨h1, h2, h3⟩)]
    simp only [List.mem_filterMap, List.mem_range, Option.mem_def,
      Option.ite_none_right_eq_some, Option.some.injEq]
    constructor
    · rintro ⟨i, hi, hc, hs⟩
      refine ⟨by simpa using h1, by simpa using h2, h3, i, hi, hc, hs.symm⟩
    · rintro ⟨-, -, -, i, hi, hc, hs⟩
      exact ⟨i, hi, hc, hs.symm⟩

/-- The produced sites are listed in strictly increasing window-start
order. -/
lemma find_binding_sites_pairwise_start (T P : List Char) (mm : Int)
    (rev : Bool) :
    (find_binding_sites T P mm rev).Pairwise fun a b => a.start < b.start := by
  unfold find_binding_sites
  by_cases hg : T.length = 0 ∨ P.length = 0 ∨ T.length < P.length
  · rw [if_pos hg]
    exact List.Pairwise.nil
  · rw [if_neg hg]
    refine List.pairwise_filterMap.mpr ?_
    refine (List.pairwise_lt_range _).imp ?_
    intro i j hij b hb b' hb'
    simp only [Option.mem_def, Option.ite_none_right_eq_some,
      Option.some.injEq] at hb hb'
    rw [← hb.2, ← hb'.2, siteAt_start, siteAt_start]
    omega

/-! ### Claim theorems about `find_binding_sites` -/

/-- C1: with `max_mismatches = 0` and forward orientation, for non-empty
template and probe with the probe no longer than the template,
`find_binding_sites` returns exactly the 1-based start positions at which
the probe occurs verbatim (character for character, after uppercasing) as a
substring of the template, in strictly ascending order, and every returned
site has `mismatches = 0`. -/
theorem find_binding_sites_exact_match_oracle (T P : List Char)
    (hT : T ≠ []) (hP : P ≠ []) (hlen : P.length ≤ T.length) :
    ((find_binding_sites T P 0 false).map BindingSite.start).Pairwise
      (· < ·) ∧
    (∀ pos : Nat,
        pos ∈ (find_binding_sites T P 0 false).map BindingSite.start ↔
          occursAt T P pos) ∧
    (∀ s ∈ find_binding_sites T P 0 false, s.mismatches = 0) := by
  refine ⟨List.pairwise_map.mpr
    (find_binding_sites_pairwise_start T P 0 false), ?_, ?_⟩
  · intro pos
    constructor
    · intro hpos
      rcases List.mem_map.mp hpos with ⟨s, hs, hstart⟩
      rcases mem_find_binding_sites.mp hs with ⟨-, -, -, i, hi, hc, rfl⟩
      rw [siteAt_start] at hstart
      have hc0 : countMismatches (windowAt T P i) (P.map Char.toUpper) = 0 :=
        by omega
      have hip : i + P.length ≤ T.length := by omega
      have hw : windowAt T P i = P.map Char.toUpper := by
        refine (countMismatches_eq_zero_iff ?_).mp hc0
        rw [windowAt_length hip, List.length_map]
      refine ⟨by omega, by omega, ?_⟩
      have hpi : pos - 1 = i := by omega
      rw [hpi]
      exact hw
    · rintro ⟨hp1, hp2, hp3⟩
      have hpi : pos = (pos - 1) + 1 := by omega
      refine List.mem_map.mpr ⟨siteAt T P false (pos - 1), ?_, by
        rw [siteAt_start]; omega⟩
      refine mem_find_binding_sites.mpr
        ⟨hT, hP, hlen, pos - 1, by omega, ?_, rfl⟩
      have hw : windowAt T P (pos - 1) = P.map Char.toUpper := hp3
      rw [hw, countMismatches_self]
      simp
  · intro s hs
    rcases mem_find_binding_sites.mp hs with ⟨-, -, -, i, -, hc, rfl⟩
    rw [siteAt_mismatches]
    omega

/-- Witness for C1 at template `"ATAT"`, probe `"AT"`: position 3 is
reported because the probe occurs there. -/
theorem find_binding_sites_exact_match_oracle_witness :
    (3 : Nat) ∈ (find_binding_sites "ATAT".toList "AT".toList 0 false).map
      BindingSite.start :=
  ((find_binding_sites_exact_match_oracle "ATAT".toList "AT".toList
    (by decide) (by decide) (by decide)).2.1 3).mpr (by decide)

/-- C6: every returned binding site covers exactly the probe length
(`ending - start + 1 = |P|`), stays within the mismatch budget, and the
site list is strictly ascending in window start. -/
theorem find_binding_sites_site_invariants (T P : List Char) (mm : Int)
    (rev : Bool) :
    (∀ s ∈ find_binding_sites T P mm rev,
        s.ending - s.start + 1 = P.length ∧ (s.mismatches : Int) ≤ mm) ∧
    (find_binding_sites T P mm rev).Pairwise
      (fun a b => a.start < b.start) := by
  refine ⟨?_, find_binding_sites_pairwise_start T P mm rev⟩
  intro s hs
  rcases mem_find_binding_sites.mp hs with ⟨-, hP, -, i, -, hc, rfl⟩
  have hp : 0 < P.length := List.length_pos.mpr hP
  rw [siteAt_start, siteAt_ending, siteAt_mismatches]
  exact ⟨by omega, hc⟩

/-- Witness for C6 at template `"ATAT"`, probe `"AT"`,
`max_mismatches = 0`: the first returned site spans 2 bases within
budget. -/
theorem find_binding_sites_site_invariants_witness :
    BindingSite.ending (siteAt "ATAT".toList "AT".toList false 0) -
        BindingSite.start (siteAt "ATAT".toList "AT".toList false 0) + 1 =
        ("AT".toList).length ∧
    ((siteAt "ATAT".toList "AT".toList false 0).mismatches : Int) ≤ 0 :=
  (find_binding_sites_site_invariants "ATAT".toList "AT".toList 0 false).1
    (siteAt "ATAT".toList "AT".toList false 0) (by decide)

/-- C8: `find_binding_sites` is total and returns the empty list for an
empty template, an empty probe, a probe longer than the template, or a
negative mismatch budget. -/
theorem find_binding_sites_degenerate_inputs (T P : List Char) (mm : Int)
    (rev : Bool) :
    (T = [] → find_binding_sites T P mm rev = []) ∧
    (P = [] → find_binding_sites T P mm rev = []) ∧
    (T.length < P.length → find_binding_sites T P mm rev = []) ∧
    (mm < 0 → find_binding_sites T P mm rev = []) := by
  refine ⟨?_, ?_, ?_, ?_⟩
  · intro h
    unfold find_binding_sites
    rw [if_pos (by simp [h])]
  · intro h
    unfold find_binding_sites
    rw [if_pos (by simp [h])]
  · intro h
    unfold find_binding_sites
    rw [if_pos (by omega)]
  · intro h
    unfold find_binding_sites
    by_cases hg : T.length = 0 ∨ P.length = 0 ∨ T.length < P.length
    · rw [if_pos hg]
    · rw [if_neg hg]
      refine List.filterMap_eq_nil_iff.mpr ?_
      intro i _
      rw [if_neg (by omega)]

/-- Witness for C8: the four degenerate shapes on concrete inputs. -/
theorem find_binding_sites_degenerate_inputs_witness :
    find_binding_sites [] "AT".toList 2 false = [] ∧
    find_binding_sites "ATAT".toList [] 2 false = [] ∧
    find_binding_sites "AT".toList "ATAT".toList 2 false = [] ∧
    find_binding_sites "ATAT".toList "AT".toList (-1) false = [] :=
  ⟨(find_binding_sites_degenerate_inputs [] "AT".toList 2 false).1 rfl,
   (find_binding_sites_degenerate_inputs "ATAT".toList [] 2 false).2.1 rfl,
   (find_binding_sites_degenerate_inputs "AT".toList "ATAT".toList 2
     false).2.2.1 (by decide),
   (find_binding_sites_degenerate_inputs "ATAT".toList "AT".toList (-1)
     false).2.2.2 (by decide)⟩

/-- C10: the 3′-tail mismatch count of every returned site, in either
orientation, never exceeds the full mismatch count, hence also never
exceeds the budget. -/
theorem find_binding_sites_three_prime_le (T P : List Char) (mm : Int)
    (rev : Bool) :
    ∀ s ∈ find_binding_sites T P mm rev,
      s.threePrimeMismatches ≤ s.mismatches ∧
      (s.threePrimeMismatches : Int) ≤ mm := by
  intro s hs
  rcases mem_find_binding_sites.mp hs with ⟨-, -, hlen, i, hi, hc, rfl⟩
  have hip : i + P.length ≤ T.length := by omega
  have hwl : (windowAt T P i).length = (P.map Char.toUpper).length := by
    rw [windowAt_length hip, List.length_map]
  have hle : (siteAt T P rev i).threePrimeMismatches ≤
      (siteAt T P rev i).mismatches := by
    cases rev
    · rw [siteAt_threePrime_forward, siteAt_mismatches]
      unfold lastN
      rw [hwl]
      exact countMismatches_drop_le _ _ _
    · rw [siteAt_threePrime_reverse, siteAt_mismatches]
      exact countMismatches_take_le _ _ _
  refine ⟨hle, ?_⟩
  rw [← siteAt_mismatches T P rev i] at hc
  omega

/-- Witness for C10 at template `"ATAT"`, probe `"AT"`, budget 1. -/
theorem find_binding_sites_three_prime_le_witness :
    (siteAt "ATAT".toList "AT".toList false 0).threePrimeMismatches ≤
      (siteAt "ATAT".toList "AT".toList false 0).mismatches ∧
    ((siteAt "ATAT".toList "AT".toList false 0).threePrimeMismatches :
      Int) ≤ 1 :=
  find_binding_sites_three_prime_le "ATAT".toList "AT".toList 1 false
    (siteAt "ATAT".toList "AT".toList false 0) (by decide)

/-- C2 counterexample: the probe `"AAAAA"` has length 5 (so length ≥ 5 as
the claim requires) and the only accepted forward window of template
`"TAAAA"` disagrees with it exactly at probe position 0, yet the forward
orientation reports `three_prime_mismatch_count = 1`, not 0: the last 5
positions of a length-5 window include position 0. -/
theorem find_binding_sites_three_prime_tail_counterexample :
    ("AAAAA".toList).length = 5 ∧
    (find_binding_sites "TAAAA".toList "AAAAA".toList 1 false).map
      BindingSite.sequence = ["TAAAA".toList] ∧
    mismatchOnlyAtZero "TAAAA".toList ("AAAAA".toList.map Char.toUpper) ∧
    (find_binding_sites "TAAAA".toList "AAAAA".toList 1 false).map
      BindingSite.threePrimeMismatches = [1] ∧
    (find_binding_sites "TAAAA".toList "AAAAA".toList 1 false).map
      BindingSite.threePrimeMismatches ≠ [0] := by decide

/-- C2 (amended): the 3′ count of every accepted window is computed over
the last 5 window positions in forward orientation and the first 5 in
reverse orientation; consequently, for a probe of length ≥ 6 (not ≥ 5: at
length exactly 5 the last-5 slice still covers position 0), a window whose
only mismatch is at probe position 0 gets forward 3′ count 0, while for
probe length ≥ 5 the reverse orientation gives that window 3′ count 1. -/
theorem find_binding_sites_three_prime_tail (T P : List Char) (mm : Int) :
    (∀ s ∈ find_binding_sites T P mm false,
        s.threePrimeMismatches =
          countMismatches (lastN 5 s.sequence)
            (lastN 5 (P.map Char.toUpper))) ∧
    (∀ s ∈ find_binding_sites T P mm true,
        s.threePrimeMismatches =
          countMismatches (s.sequence.take 5)
            ((P.map Char.toUpper).take 5)) ∧
    (6 ≤ P.length → ∀ s ∈ find_binding_sites T P mm false,
        mismatchOnlyAtZero s.sequence (P.map Char.toUpper) →
        s.threePrimeMismatches = 0) ∧
    (5 ≤ P.length → ∀ s ∈ find_binding_sites T P mm true,
        mismatchOnlyAtZero s.sequence (P.map Char.toUpper) →
        s.threePrimeMismatches = 1) := by
  have hLp : (P.map Char.toUpper).length = P.length := List.length_map _ _
  refine ⟨?_, ?_, ?_, ?_⟩
  · intro s hs
    rcases mem_find_binding_sites.mp hs with ⟨-, -, -, i, -, -, rfl⟩
    rw [siteAt_threePrime_forward, siteAt_sequence]
  · intro s hs
    rcases mem_find_binding_sites.mp hs with ⟨-, -, -, i, -, -, rfl⟩
    rw [siteAt_threePrime_reverse, siteAt_sequence]
  · intro hP6 s hs hm
    rcases mem_find_binding_sites.mp hs with ⟨-, -, -, i, -, -, rfl⟩
    rw [siteAt_sequence] at hm
    obtain ⟨hL, hhead, htail⟩ := hm
    rw [siteAt_threePrime_forward]
    have h5 : (P.map Char.toUpper).length - 5 =
        1 + ((P.map Char.toUpper).length - 6) := by
      rw [hLp]; omega
    have hdrop : lastN 5 (windowAt T P i) = lastN 5 (P.map Char.toUpper) := by
      unfold lastN
      rw [hL, h5, ← List.drop_drop, htail, List.drop_drop]
    rw [hdrop, countMismatches_self]
  · intro hP5 s hs hm
    rcases mem_find_binding_sites.mp hs with ⟨-, -, -, i, -, -, rfl⟩
    rw [siteAt_sequence] at hm
    obtain ⟨hL, hhead, htail⟩ := hm
    rw [siteAt_threePrime_reverse]
    cases hw : windowAt T P i with
    | nil =>
      rw [hw] at hL
      rw [hLp] at hL
      simp at hL
      omega
    | cons a w' =>
      cases hp : P.map Char.toUpper with
      | nil =>
        rw [hp] at hLp
        simp at hLp
        omega
      | cons b p' =>
        rw [hw, hp] at hhead htail
        simp only [List.head?_cons, ne_eq, Option.some.injEq] at hhead
        simp only [List.drop_one, List.tail_cons] at htail
        have ht1 : (a :: w').take 5 = a :: w'.take 4 := rfl
        have ht2 : (b :: p').take 5 = b :: p'.take 4 := rfl
        rw [ht1, ht2, countMismatches_cons, htail, countMismatches_self]
        simp [bne_iff_ne, hhead]

/-- Witness for amended C2: probe `"AAAAAA"` (length 6), template
`"CAAAAA"` — the single mismatch at position 0 leaves the forward 3′ count
at 0. -/
theorem find_binding_sites_three_prime_tail_witness :
    (siteAt "CAAAAA".toList "AAAAAA".toList false 0).threePrimeMismatches
      = 0 :=
  (find_binding_sites_three_prime_tail "CAAAAA".toList "AAAAAA".toList
    1).2.2.1 (by decide) (siteAt "CAAAAA".toList "AAAAAA".toList false 0)
    (by decide) (by decide)

/-! ### Claim theorems about `run_virtual_pcr` -/

/-- Membership characterisation of the pairing loop of `run_virtual_pcr`. -/
lemma mem_enumerate_products {fwd_sites rev_sites : List BindingSite}
    {maxp : Int} {a : Amplicon} :
    a ∈ enumerate_products fwd_sites rev_sites maxp ↔
      ∃ f ∈ fwd_sites, ∃ r ∈ rev_sites,
        f.start < r.ending ∧
        ((r.ending - f.start + 1 : Nat) : Int) ≤ maxp ∧
        a = ⟨f.start, f.ending, r.start, r.ending, r.ending - f.start + 1,
             f.mismatches, r.mismatches,
             f.threePrimeMismatches, r.threePrimeMismatches⟩ := by
  unfold enumerate_products
  simp only [List.mem_flatMap, List.mem_filterMap, Option.mem_def,
    Option.ite_none_right_eq_some, Option.some.injEq]
  constructor
  · rintro ⟨f, hf, r, hr, h1, h2, rfl⟩
    exact ⟨f, hf, r, hr, h1, h2, rfl⟩
  · rintro ⟨f, hf, r, hr, h1, h2, rfl⟩
    exact ⟨f, hf, r, hr, h1, h2, rfl⟩

/-- C3: every returned amplicon has its forward start strictly before the
reverse end, records `size = rev_end - fwd_start + 1`, respects the size
cap, and has a strictly positive size. -/
theorem run_virtual_pcr_amplicon_invariants (template fwd rev : List Char)
    (mm maxp : Int) :
    ∀ a ∈ run_virtual_pcr template fwd rev mm maxp,
      a.fwd_start < a.rev_end ∧
      a.size = a.rev_end - a.fwd_start + 1 ∧
      (a.size : Int) ≤ maxp ∧ 0 < a.size := by
  intro a ha
  have ha' := List.mem_mergeSort.mp ha
  rcases mem_enumerate_products.mp ha' with ⟨f, -, r, -, h1, h2, rfl⟩
  exact ⟨h1, rfl, h2, Nat.succ_pos _⟩

/-- Witness for C3: template `"AAATTT"`, primers `"AAA"`/`"AAA"` yield the
single amplicon spanning positions 1–6. -/
theorem run_virtual_pcr_amplicon_invariants_witness :
    Amplicon.fwd_start ⟨1, 3, 4, 6, 6, 0, 0, 0, 0⟩ <
      Amplicon.rev_end ⟨1, 3, 4, 6, 6, 0, 0, 0, 0⟩ ∧
    Amplicon.size ⟨1, 3, 4, 6, 6, 0, 0, 0, 0⟩ =
      Amplicon.rev_end ⟨1, 3, 4, 6, 6, 0, 0, 0, 0⟩ -
        Amplicon.fwd_start ⟨1, 3, 4, 6, 6, 0, 0, 0, 0⟩ + 1 ∧
    ((Amplicon.size ⟨1, 3, 4, 6, 6, 0, 0, 0, 0⟩ : Nat) : Int) ≤ 10 ∧
    0 < Amplicon.size ⟨1, 3, 4, 6, 6, 0, 0, 0, 0⟩ :=
  run_virtual_pcr_amplicon_invariants "AAATTT".toList "AAA".toList
    "AAA".toList 0 10 ⟨1, 3, 4, 6, 6, 0, 0, 0, 0⟩
    (List.mem_mergeSort.mpr (by decide))

/-- A stable sort leaves the sublist of elements picked out by a predicate
on which the order is constant untouched. -/
lemma mergeSort_filter_eq {α : Type} (l : List α) (le : α → α → Bool)
    (htrans : ∀ a b c, le a b → le b c → le a c)
    (htotal : ∀ a b, le a b || le b a)
    (p : α → Bool) (hp : ∀ a b, p a → p b → le a b) :
    (l.mergeSort le).filter p = l.filter p := by
  have hpw : (l.filter p).Pairwise fun a b => le a b := by
    refine List.pairwise_of_forall_mem_list ?_
    intro a ha b hb
    exact hp a b (List.mem_filter.mp ha).2 (List.mem_filter.mp hb).2
  have hsub : List.Sublist (l.filter p) (l.mergeSort le) :=
    List.sublist_mergeSort htrans htotal hpw (List.filter_sublist l)
  have heq : (l.filter p).filter p = l.filter p :=
    List.filter_eq_self.mpr fun a ha => (List.mem_filter.mp ha).2
  have hsub2 : List.Sublist (l.filter p) ((l.mergeSort le).filter p) := by
    have h := hsub.filter p
    rwa [heq] at h
  have hlen : ((l.mergeSort le).filter p).length = (l.filter p).length :=
    ((List.mergeSort_perm l le).filter p).length_eq
  exact (hsub2.eq_of_length hlen.symm).symm

/-- C7: the amplicon list is sorted ascending by `size`, and the sort is
stable: the amplicons of any given size appear exactly as in the
cross-product enumeration order. -/
theorem run_virtual_pcr_sorted_stable (template fwd rev : List Char)
    (mm maxp : Int) :
    (run_virtual_pcr template fwd rev mm maxp).Pairwise
      (fun a b => a.size ≤ b.size) ∧
    ∀ n : Nat,
      (run_virtual_pcr template fwd rev mm maxp).filter
          (fun a => decide (a.size = n)) =
        (enumerate_products
            (find_binding_sites (template.map Char.toUpper) fwd mm false)
            (find_binding_sites (template.map Char.toUpper)
              (reverse_complement rev) mm true) maxp).filter
          (fun a => decide (a.size = n)) := by
  have htrans : ∀ a b c : Amplicon, decide (a.size ≤ b.size) →
      decide (b.size ≤ c.size) → decide (a.size ≤ c.size) := by
    intro a b c hab hbc
    simp only [decide_eq_true_eq] at *
    omega
  have htotal : ∀ a b : Amplicon,
      decide (a.size ≤ b.size) || decide (b.size ≤ a.size) := by
    intro a b
    simp only [Bool.or_eq_true, decide_eq_true_eq]
    omega
  constructor
  · have h := List.sorted_mergeSort htrans htotal
      (enumerate_products
        (find_binding_sites (template.map Char.toUpper) fwd mm false)
        (find_binding_sites (template.map Char.toUpper)
          (reverse_complement rev) mm true) maxp)
    exact h.imp fun hab => by simpa using hab
  · intro n
    exact mergeSort_filter_eq _ _ htrans htotal _
      fun a b ha hb => by
        simp only [decide_eq_true_eq] at *
        omega

/-- Witness for C7: the stability equation instantiated at size 6 on the
concrete run of C3's witness. -/
theorem run_virtual_pcr_sorted_stable_witness :
    (run_virtual_pcr "AAATTT".toList "AAA".toList "AAA".toList 0 10).filter
        (fun a => decide (a.size = 6)) =
      (enumerate_products
          (find_binding_sites ("AAATTT".toList.map Char.toUpper)
            "AAA".toList 0 false)
          (find_binding_sites ("AAATTT".toList.map Char.toUpper)
            (reverse_complement "AAA".toList) 0 true) 10).filter
        (fun a => decide (a.size = 6)) :=
  (run_virtual_pcr_sorted_stable "AAATTT".toList "AAA".toList "AAA".toList
    0 10).2 6

/-! ### Claim theorems about the exon-junction annotator -/

/-- Membership characterisation of the annotator's `map`. -/
lemma mem_annotate {primers : List PrimerRec} {junctions : List Int}
    {mt : Int} {ap : AnnotatedPrimer} :
    ap ∈ annotate_primers_with_junctions primers junctions mt ↔
      ∃ p ∈ primers, ap =
        ⟨p,
         !(junctions.filter fun j =>
             spans_junction p.left_start p.left_length j mt).isEmpty,
         !(junctions.filter fun j =>
             spans_junction (p.right_start - p.right_length) p.right_length
               j mt).isEmpty⟩ := by
  unfold annotate_primers_with_junctions
  simp only [List.mem_map]
  constructor
  · rintro ⟨p, hp, rfl⟩
    exact ⟨p, hp, rfl⟩
  · rintro ⟨p, hp, rfl⟩
    exact ⟨p, hp, rfl⟩

/-- The Python truthiness test `bool([j for j in junctions if f(j)])` is existence. -/
lemma flag_iff (junctions : List Int) (f : Int → Bool) :
    (!(junctions.filter f).isEmpty) = true ↔ ∃ j ∈ junctions, f j = true := by
  simp [List.isEmpty_iff, List.filter_eq_nil_iff]

lemma exon_junctions_len_le_one {exons : List (Int × Int)}
    (h : exons.length ≤ 1) : exon_junctions_0based exons = [] := by
  cases exons with
  | nil => rfl
  | cons a t =>
    cases t with
    | nil => rfl
    | cons b u => simp at h

/-- C4: the junction list is the `end` coordinate of every exon but the
last (empty for at most one exon, in which case both flags are false);
`spans_junction` holds iff the junction is strictly interior to the span
`[a, a+len)` with both tails at least `min_tail`; and each flag is true iff
some junction is spanned by the corresponding primer span. -/
theorem annotate_junction_semantics (primers : List PrimerRec)
    (exons : List (Int × Int)) (min_tail : Int) :
    exon_junctions_0based exons = (exons.dropLast).map Prod.snd ∧
    (exons.length ≤ 1 →
      ∀ ap ∈ annotate_primers_with_junctions primers
          (exon_junctions_0based exons) min_tail,
        ap.fwd_spans_junction = false ∧ ap.rev_spans_junction = false) ∧
    (∀ a len j mt : Int, spans_junction a len j mt = true ↔
        (a < j ∧ j < a + len ∧ mt ≤ j - a ∧ mt ≤ a + len - j)) ∧
    (∀ ap ∈ annotate_primers_with_junctions primers
        (exon_junctions_0based exons) min_tail,
      (ap.fwd_spans_junction = true ↔
        ∃ j ∈ exon_junctions_0based exons,
          spans_junction ap.primer.left_start ap.primer.left_length j
            min_tail = true) ∧
      (ap.rev_spans_junction = true ↔
        ∃ j ∈ exon_junctions_0based exons,
          spans_junction (ap.primer.right_start - ap.primer.right_length)
            ap.primer.right_length j min_tail = true)) := by
  refine ⟨?_, ?_, ?_, ?_⟩
  · cases exons with
    | nil => rfl
    | cons a t => simp [exon_junctions_0based]
  · intro hlen ap hap
    rw [exon_junctions_len_le_one hlen] at hap
    rcases mem_annotate.mp hap with ⟨p, -, rfl⟩
    exact ⟨rfl, rfl⟩
  · intro a len j mt
    unfold spans_junction
    simp only [Bool.and_eq_true, decide_eq_true_eq, ge_iff_le]
    omega
  · intro ap hap
    rcases mem_annotate.mp hap with ⟨p, -, rfl⟩
    exact ⟨flag_iff _ _, flag_iff _ _⟩

/-- Witness for C4: a single-exon list yields no junctions, so both flags
of the annotated primer are false. -/
theorem annotate_junction_semantics_witness :
    AnnotatedPrimer.fwd_spans_junction ⟨⟨10, 5, 30, 5⟩, false, false⟩ =
      false ∧
    AnnotatedPrimer.rev_spans_junction ⟨⟨10, 5, 30, 5⟩, false, false⟩ =
      false :=
  (annotate_junction_semantics [⟨10, 5, 30, 5⟩] [(1, 12)] 2).2.1 (by decide)
    ⟨⟨10, 5, 30, 5⟩, false, false⟩ (by decide)

/-- C5: the reverse primer's span used for classification starts at
`right_start - right_length` and has length `right_length`, and the
spanning predicate is exact at the boundary: tails of exactly `min_tail`
pass, tails of `min_tail - 1` fail. -/
theorem annotate_reverse_span_boundary (primers : List PrimerRec)
    (junctions : List Int) (min_tail : Int) :
    (∀ ap ∈ annotate_primers_with_junctions primers junctions min_tail,
        (ap.rev_spans_junction = true ↔
          ∃ j ∈ junctions,
            spans_junction (ap.primer.right_start - ap.primer.right_length)
              ap.primer.right_length j min_tail = true)) ∧
    (∀ a len j mt : Int, 1 ≤ mt →
        ((j - a = mt ∧ a + len - j = mt) →
            spans_junction a len j mt = true) ∧
        (j - a = mt - 1 → spans_junction a len j mt = false) ∧
        (a + len - j = mt - 1 → spans_junction a len j mt = false)) := by
  constructor
  · intro ap hap
    rcases mem_annotate.mp hap with ⟨p, -, rfl⟩
    exact flag_iff _ _
  · intro a len j mt hmt
    refine ⟨?_, ?_, ?_⟩
    · rintro ⟨h1, h2⟩
      unfold spans_junction
      simp only [Bool.and_eq_true, decide_eq_true_eq, ge_iff_le]
      omega
    · intro h1
      unfold spans_junction
      rw [Bool.eq_false_iff]
      simp only [ne_eq, Bool.and_eq_true, decide_eq_true_eq, ge_iff_le]
      omega
    · intro h1
      unfold spans_junction
      rw [Bool.eq_false_iff]
      simp only [ne_eq, Bool.and_eq_true, decide_eq_true_eq, ge_iff_le]
      omega

/-- Witness for C5: span `[10, 14)` spans junction 12 with both tails
exactly 2 when `min_tail = 2`. -/
theorem annotate_reverse_span_boundary_witness :
    spans_junction 10 4 12 2 = true :=
  ((annotate_reverse_span_boundary [] [] 0).2 10 4 12 2 (by decide)).1
    ⟨by decide, by decide⟩

/-! ### Claim theorem about `reverse_complement` -/

lemma upper_fixed_of_alphabet : ∀ c ∈ dnaAlphabet, c.toUpper = c := by
  decide

/-- C9: on the IUPAC alphabet, `reverse_complement` complements every
symbol by the documented pairing and reverses the sequence, and
`run_virtual_pcr` searches the reverse primer's sites using exactly this
reverse complement as the probe. -/
theorem reverse_complement_spec (seq : List Char)
    (h : ∀ c ∈ seq, c ∈ dnaAlphabet) :
    reverse_complement seq = (seq.map complementChar).reverse ∧
    (complementChar 'A' = 'T' ∧ complementChar 'T' = 'A' ∧
     complementChar 'G' = 'C' ∧ complementChar 'C' = 'G' ∧
     complementChar 'N' = 'N' ∧ complementChar 'R' = 'Y' ∧
     complementChar 'Y' = 'R' ∧ complementChar 'S' = 'S' ∧
     complementChar 'W' = 'W' ∧ complementChar 'K' = 'M' ∧
     complementChar 'M' = 'K' ∧ complementChar 'B' = 'V' ∧
     complementChar 'V' = 'B' ∧ complementChar 'D' = 'H' ∧
     complementChar 'H' = 'D') ∧
    (∀ (template fwd rev : List Char) (mm maxp : Int),
      run_virtual_pcr template fwd rev mm maxp =
        (enumerate_products
            (find_binding_sites (template.map Char.toUpper) fwd mm false)
            (find_binding_sites (template.map Char.toUpper)
              (reverse_complement rev) mm true) maxp).mergeSort
          fun x y => decide (x.size ≤ y.size)) := by
  refine ⟨?_, by decide, fun _ _ _ _ _ => rfl⟩
  unfold reverse_complement
  have hid : seq.map Char.toUpper = seq := by
    have h1 : seq.map Char.toUpper = seq.map id :=
      List.map_congr_left fun c hc => upper_fixed_of_alphabet c (h c hc)
    rw [h1, List.map_id]
  rw [hid, List.map_reverse]

/-- Witness for C9 on the sequence `"ATGC"`. -/
theorem reverse_complement_spec_witness :
    reverse_complement "ATGC".toList =
      ("ATGC".toList.map complementChar).reverse :=
  (reverse_complement_spec "ATGC".toList (by decide)).1

end Primers3
